import Mathlib

/-!
Verification of the rigid-transform library in `src/DynamicBind/utils/affine.py`.

The Python code operates on batched float tensors; every operation acts
elementwise over the shared leading batch dimensions.  We embed the per-element
mathematics over the exact reals: a `[*, 3, 3]` rotation tensor becomes a
`Matrix (Fin 3) (Fin 3) ℝ` and a `[*, 3]` translation tensor a `Fin 3 → ℝ`.
Shape-level behaviour (construction checks, `shape`, `unsqueeze`, indexing) is
embedded separately over `List ℕ` shapes, mirroring the Python shape algebra.
-/

open Real

noncomputable section

/-- Elementwise view of a `[*, 3]` coordinate tensor. -/
abbrev Vec3 := Fin 3 → ℝ

/-- Elementwise view of a `[*, 3, 3]` rotation tensor. -/
abbrev Mat3 := Matrix (Fin 3) (Fin 3) ℝ

/-- `rot_matmul` from `utils/affine.py` (lines 24-81): the matrix product of two
rotation matrices, written out entry by entry exactly as in the source. -/
def rot_matmul (a b : Mat3) : Mat3 :=
  Matrix.of
    ![![a 0 0 * b 0 0 + a 0 1 * b 1 0 + a 0 2 * b 2 0,
        a 0 0 * b 0 1 + a 0 1 * b 1 1 + a 0 2 * b 2 1,
        a 0 0 * b 0 2 + a 0 1 * b 1 2 + a 0 2 * b 2 2],
      ![a 1 0 * b 0 0 + a 1 1 * b 1 0 + a 1 2 * b 2 0,
        a 1 0 * b 0 1 + a 1 1 * b 1 1 + a 1 2 * b 2 1,
        a 1 0 * b 0 2 + a 1 1 * b 1 2 + a 1 2 * b 2 2],
      ![a 2 0 * b 0 0 + a 2 1 * b 1 0 + a 2 2 * b 2 0,
        a 2 0 * b 0 1 + a 2 1 * b 1 1 + a 2 2 * b 2 1,
        a 2 0 * b 0 2 + a 2 1 * b 1 2 + a 2 2 * b 2 2]]

/-- `rot_vec_mul` from `utils/affine.py` (lines 84-108): application of a
rotation matrix to a vector, written out entry by entry as in the source. -/
def rot_vec_mul (r : Mat3) (t : Vec3) : Vec3 :=
  ![r 0 0 * t 0 + r 0 1 * t 1 + r 0 2 * t 2,
    r 1 0 * t 0 + r 1 1 * t 1 + r 1 2 * t 2,
    r 2 0 * t 0 + r 2 1 * t 1 + r 2 2 * t 2]

/-- The class `T` of `utils/affine.py`: a rigid transform, one rotation matrix
together with one translation vector (per batch element). -/
@[ext]
structure T where
  rots : Mat3
  trans : Vec3

/-- `T.compose` (lines 259-276): `rot = rot_matmul(rot_1, rot_2)`,
`trn = rot_vec_mul(rot_1, trn_2) + trn_1`. -/
def T.compose (s t : T) : T :=
  ⟨rot_matmul s.rots t.rots, rot_vec_mul s.rots t.trans + s.trans⟩

/-- `T.add` (lines 278-295): `rot = rot_matmul(rot_1, rot_2)`,
`trn = trn_2 + trn_1` (the translation of the inner transform is *not*
rotated). -/
def T.add (s t : T) : T :=
  ⟨rot_matmul s.rots t.rots, t.trans + s.trans⟩

/-- `T.apply` (lines 297-310): `rot_vec_mul(r, pts) + t`. -/
def T.apply (s : T) (pts : Vec3) : Vec3 :=
  rot_vec_mul s.rots pts + s.trans

/-- `T.invert_apply` (lines 312-325): `rot_vec_mul(r.transpose(-1, -2), pts - t)`. -/
def T.invert_apply (s : T) (pts : Vec3) : Vec3 :=
  rot_vec_mul s.rots.transpose (pts - s.trans)

/-- `T.invert` (lines 327-337): rotation is the transpose, translation is
`-1 * rot_vec_mul(rot_inv, trans)`. -/
def T.invert (s : T) : T :=
  ⟨s.rots.transpose, (-1 : ℝ) • rot_vec_mul s.rots.transpose s.trans⟩

/-- `T.identity` (lines 385-410) per batch element: `_identity_rot` is the 3×3
identity matrix and `_identity_trans` the zero vector. -/
def T.identity : T := ⟨1, 0⟩

theorem rot_matmul_eq_mul (a b : Mat3) : rot_matmul a b = a * b := by
  ext i j
  fin_cases i <;> fin_cases j <;>
    simp [rot_matmul, Matrix.mul_apply, Fin.sum_univ_three]

theorem rot_vec_mul_eq_mulVec (r : Mat3) (t : Vec3) :
    rot_vec_mul r t = r.mulVec t := by
  funext i
  fin_cases i <;>
    simp [rot_vec_mul, Matrix.mulVec, Matrix.dotProduct, Fin.sum_univ_three]

/-- C2: for all transforms `outer` and `inner`, `compose(outer, inner)` has
rotation equal to the matrix product `outer.rotation · inner.rotation` and
translation equal to `outer.rotation · inner.translation + outer.translation`. -/
theorem compose_is_affine_product (outer inner : T) :
    (outer.compose inner).rots = outer.rots * inner.rots ∧
    (outer.compose inner).trans = outer.rots.mulVec inner.trans + outer.trans := by
  refine ⟨?_, ?_⟩
  · simp [T.compose, rot_matmul_eq_mul]
  · simp [T.compose, rot_vec_mul_eq_mulVec]

/-- C6: `invert_apply(t, p)`, computed directly as
`transpose(rotation) · (p − translation)`, agrees with the two-step
`apply(invert(t), p)` for every transform and every point. -/
theorem invert_apply_eq_apply_invert (t : T) (p : Vec3) :
    t.invert_apply p = t.invert.apply p := by
  rw [T.invert_apply, T.invert, T.apply, rot_vec_mul_eq_mulVec,
    rot_vec_mul_eq_mulVec, rot_vec_mul_eq_mulVec]
  simp [Matrix.mulVec_sub, sub_eq_add_neg, Matrix.mulVec_add, Matrix.mulVec_neg]

/-- C7: composing any transform with the identity transform on either side
returns the transform unchanged, pointwise exactly. -/
theorem compose_identity_left_right (t : T) :
    t.compose T.identity = t ∧ T.identity.compose t = t := by
  refine ⟨?_, ?_⟩ <;>
    ext <;>
      simp [T.compose, T.identity, rot_matmul_eq_mul, rot_vec_mul_eq_mulVec,
        Matrix.mulVec_zero, Matrix.one_mulVec]

/-- C9: `add` has the same rotation as `compose`, but its translation is
`inner.translation + outer.translation` with no rotation applied; hence
`add` agrees with `compose` exactly when the outer rotation fixes the inner
translation. -/
theorem add_vs_compose (a b : T) :
    (a.add b).rots = (a.compose b).rots ∧
    (a.add b).trans = b.trans + a.trans ∧
    (a.add b = a.compose b ↔ a.rots.mulVec b.trans = b.trans) := by
  refine ⟨rfl, rfl, ?_⟩
  constructor
  · intro h
    have h2 := congrArg T.trans h
    simp only [T.add, T.compose, rot_vec_mul_eq_mulVec] at h2
    have h3 : b.trans + a.trans - a.trans = a.rots.mulVec b.trans + a.trans - a.trans := by
      rw [h2]
    simpa using h3.symm
  · intro h
    ext i j
    · rfl
    · simp [T.add, T.compose, rot_vec_mul_eq_mulVec, h]

/-- C1: `invert` returns the transposed rotation and the negated rotated
translation, and for a transform whose rotation is orthonormal
(`Rᵀ · R = 1`) applying the transform and then its inverse returns every
point exactly. -/
theorem invert_round_trip (t : T) (p : Vec3)
    (h : t.rots.transpose * t.rots = 1) :
    t.invert.rots = t.rots.transpose ∧
    t.invert.trans = -(t.rots.transpose.mulVec t.trans) ∧
    t.invert.apply (t.apply p) = p := by
  refine ⟨rfl, ?_, ?_⟩
  · simp [T.invert, rot_vec_mul_eq_mulVec]
  · rw [T.apply, T.apply, T.invert]
    simp only [rot_vec_mul_eq_mulVec, Matrix.mulVec_add, Matrix.mulVec_mulVec, h,
      Matrix.one_mulVec, neg_one_smul]
    abel

/-- Witness for C1 at the transform with identity rotation and translation
`(1, 2, 3)`, applied to the point `(4, 5, 6)`. -/
theorem invert_round_trip_witness :
    ((⟨1, ![1, 2, 3]⟩ : T).rots.transpose * (⟨1, ![1, 2, 3]⟩ : T).rots = 1) ∧
    ((⟨1, ![1, 2, 3]⟩ : T).invert.apply
      ((⟨1, ![1, 2, 3]⟩ : T).apply ![4, 5, 6]) = ![4, 5, 6]) :=
  ⟨by simp, (invert_round_trip ⟨1, ![1, 2, 3]⟩ ![4, 5, 6] (by simp)).2.2⟩

end

/-!
Shape-level model.  Construction (`T.__init__`), the `shape` property,
`unsqueeze` and integer indexing act only on the tensor shapes, modelled as
`List ℕ` (one entry per dimension).
-/

/-- Python slice `shape[:-n]` (clamped, as in Python). -/
def pyDropLast (n : Nat) (s : List Nat) : List Nat :=
  s.take (s.length - n)

/-- Python slice `shape[-n:]` (clamped, as in Python). -/
def pyLast (n : Nat) (s : List Nat) : List Nat :=
  s.drop (s.length - n)

/-- Shape-level view of a transform: the full tensor shapes of `rots` and
`trans`. -/
structure ShapedT where
  rotShape : List Nat
  transShape : List Nat
  deriving DecidableEq

/-- The Python exceptions the shape-level code can raise, identified by
exception class and message. -/
inductive PyErr where
  /-- `ValueError("Only one of rots and trans can be None")` (line 131). -/
  | valueOnlyOneNone
  /-- `ValueError("Incorrectly shaped input")` (line 152). -/
  | valueIncorrectShape
  /-- `ValueError("Invalid dimension")` (line 352). -/
  | valueInvalidDim
  /-- `IndexError: tuple index out of range`, raised by the tuple index
  `self.trans.shape[-1]` (line 149) when the translation is 0-dimensional. -/
  | indexTupleRange
  /-- `IndexError: Dimension out of range`, raised inside `torch.unsqueeze`
  (lines 353-354) when the requested dimension lies outside
  `[-(rank+1), rank]` for the tensor being unsqueezed. -/
  | indexDimRange
  deriving DecidableEq

/-- The check at the end of `T.__init__` (lines 147-152), with Python's
short-circuit `or`: `rots.shape[-2:]` is a (clamped) slice and is compared
first; `trans.shape[-1]` is a tuple *index*, so a 0-dimensional translation
raises `IndexError` when that disjunct is reached; any other failed disjunct
raises `ValueError("Incorrectly shaped input")`. -/
def checkT (t : ShapedT) : Except PyErr ShapedT :=
  if pyLast 2 t.rotShape ≠ [3, 3] then .error .valueIncorrectShape
  else
    match t.transShape.getLast? with
    | none => .error .indexTupleRange
    | some d =>
      if d ≠ 3 ∨ pyDropLast 2 t.rotShape ≠ pyDropLast 1 t.transShape then
        .error .valueIncorrectShape
      else .ok t

/-- `T.__init__` (lines 118-152) at shape level.  `none` models a `None`
argument; a missing component is synthesised as an identity of the other
component's batch shape (lines 132-145), after which the shape check runs. -/
def initT (rots trans : Option (List Nat)) : Except PyErr ShapedT :=
  match rots, trans with
  | none, none => .error .valueOnlyOneNone
  | none, some ts => checkT ⟨pyDropLast 1 ts ++ [3, 3], ts⟩
  | some rs, none => checkT ⟨rs, pyDropLast 2 rs ++ [3]⟩
  | some rs, some ts => checkT ⟨rs, ts⟩

/-- `T.shape` (lines 229-239): the leading dims of the rotation if that list
is nonempty, else the one-element shape `(1,)`. -/
def ShapedT.shape (t : ShapedT) : List Nat :=
  if 0 < (pyDropLast 2 t.rotShape).length then pyDropLast 2 t.rotShape else [1]

/-- `torch.unsqueeze` at shape level: inserts a size-1 dimension at `dim`
(counted from the back when negative) and raises `IndexError` when `dim` lies
outside `[-(rank+1), rank]`. -/
def unsqueezeShape (s : List Nat) (dim : Int) : Except PyErr (List Nat) :=
  if dim < -((s.length : Int) + 1) ∨ (s.length : Int) < dim then
    .error .indexDimRange
  else if 0 ≤ dim then .ok (s.insertIdx dim.toNat 1)
  else .ok (s.insertIdx ((s.length : Int) + 1 + dim).toNat 1)

/-- `T.unsqueeze` (lines 339-356): the explicit guard raises
`ValueError("Invalid dimension")` when `dim >= len(self.shape)`; otherwise
the rotation is unsqueezed at `dim` (`dim - 2` when negative) and then the
translation at `dim` (`dim - 1` when negative), either `torch.unsqueeze`
call being able to raise `IndexError`. -/
def ShapedT.unsqueeze (t : ShapedT) (dim : Int) : Except PyErr ShapedT :=
  if (t.shape.length : Int) ≤ dim then .error .valueInvalidDim
  else
    match unsqueezeShape t.rotShape (if 0 ≤ dim then dim else dim - 2) with
    | .error e => .error e
    | .ok rs =>
      match unsqueezeShape t.transShape (if 0 ≤ dim then dim else dim - 1) with
      | .error e => .error e
      | .ok ts2 => .ok ⟨rs, ts2⟩

/-- `T.__getitem__` (lines 154-181) for a tuple of `k` integer indices: the
index tuple applies to the shared leading dims of both tensors, removing the
first `k` dimensions of each. -/
def ShapedT.getitem (t : ShapedT) (k : Nat) : ShapedT :=
  ⟨t.rotShape.drop k, t.transShape.drop k⟩

theorem pyLast_one_eq_getLast (ts : List Nat) :
    pyLast 1 ts = (match ts.getLast? with | none => [] | some d => [d]) := by
  induction ts with
  | nil => rfl
  | cons a rest ih =>
    cases rest with
    | nil => rfl
    | cons b r =>
      have hstep : pyLast 1 (a :: b :: r) = pyLast 1 (b :: r) := by
        simp only [pyLast, List.length_cons]
        rw [show r.length + 1 + 1 - 1 = r.length + 1 by omega,
          show r.length + 1 - 1 = r.length by omega, List.drop_succ_cons]
      rw [hstep, ih, List.getLast?_cons_cons]

/-- C4 counterexample: the well-formed unbatched transform (rotation shape
`(3, 3)`, translation shape `(3,)`) constructs without error, yet `unsqueeze`
with `dim = 1` raises `ValueError("Invalid dimension")` and `unsqueeze` with
`dim = -2` raises `IndexError` inside `torch.unsqueeze`; construction itself
raises `IndexError` — not the shape-mismatch `ValueError` — on a
0-dimensional translation.  So the construction-time shape-mismatch error is
not the only error kind and the other operations are not all total. -/
theorem unsqueeze_error_counterexample :
    initT (some [3, 3]) (some [3]) = .ok ⟨[3, 3], [3]⟩ ∧
    ShapedT.unsqueeze ⟨[3, 3], [3]⟩ 1 = .error .valueInvalidDim ∧
    ShapedT.unsqueeze ⟨[3, 3], [3]⟩ (-2) = .error .indexDimRange ∧
    initT (some [3, 3]) (some []) = .error .indexTupleRange := by
  refine ⟨rfl, rfl, rfl, rfl⟩

/-- C4 (amended): the library's error taxonomy.  Construction with both
components `None` raises its dedicated `ValueError`; construction from two
shapes succeeds exactly when the rotation ends in `3 × 3`, the translation
ends in `3` and the leading batch dims agree, and raises `IndexError` (from
the tuple index `trans.shape[-1]`) exactly when the rotation ends in `3 × 3`
but the translation is 0-dimensional (any other malformed pair raises the
shape-mismatch `ValueError`).  On a well-formed transform of batch shape `b`,
`unsqueeze` raises the invalid-dimension `ValueError` exactly when
`dim ≥ len(shape)`, raises `IndexError` inside `torch.unsqueeze` exactly when
`dim < -(len(b) + 1)`, and succeeds for the dims in between. -/
theorem error_taxonomy (rs ts b : List Nat) (dim : Int) :
    initT none none = .error .valueOnlyOneNone ∧
    ((initT (some rs) (some ts)).isOk = true ↔
      (pyLast 2 rs = [3, 3] ∧ pyLast 1 ts = [3] ∧
        pyDropLast 2 rs = pyDropLast 1 ts)) ∧
    (initT (some rs) (some ts) = .error .indexTupleRange ↔
      (pyLast 2 rs = [3, 3] ∧ ts = [])) ∧
    (ShapedT.unsqueeze ⟨b ++ [3, 3], b ++ [3]⟩ dim = .error .valueInvalidDim ↔
      ((ShapedT.shape ⟨b ++ [3, 3], b ++ [3]⟩).length : Int) ≤ dim) ∧
    (ShapedT.unsqueeze ⟨b ++ [3, 3], b ++ [3]⟩ dim = .error .indexDimRange ↔
      dim < -((b.length : Int) + 1)) ∧
    ((ShapedT.unsqueeze ⟨b ++ [3, 3], b ++ [3]⟩ dim).isOk = true ↔
      (-((b.length : Int) + 1) ≤ dim ∧
        dim < ((ShapedT.shape ⟨b ++ [3, 3], b ++ [3]⟩).length : Int))) := by
  have hdrop2 : pyDropLast 2 (b ++ [3, 3]) = b := by
    simp [pyDropLast, List.take_left]
  have hshape : ShapedT.shape ⟨b ++ [3, 3], b ++ [3]⟩ = if b = [] then [1] else b := by
    simp only [ShapedT.shape, hdrop2]
    cases b with
    | nil => simp
    | cons x xs => simp
  have hL1 : 1 ≤ ((ShapedT.shape ⟨b ++ [3, 3], b ++ [3]⟩).length : Int) := by
    rw [hshape]
    cases b with
    | nil => simp
    | cons x xs => simp
  have hLle : ((ShapedT.shape ⟨b ++ [3, 3], b ++ [3]⟩).length : Int) ≤
      (b.length : Int) + 1 := by
    rw [hshape]
    cases b with
    | nil => simp
    | cons x xs => simp
  have hA : ∀ d : Int, ((ShapedT.shape ⟨b ++ [3, 3], b ++ [3]⟩).length : Int) ≤ d →
      ShapedT.unsqueeze ⟨b ++ [3, 3], b ++ [3]⟩ d = .error .valueInvalidDim := by
    intro d hd
    rw [ShapedT.unsqueeze, if_pos hd]
  have hB : ∀ d : Int, d < -((b.length : Int) + 1) →
      ShapedT.unsqueeze ⟨b ++ [3, 3], b ++ [3]⟩ d = .error .indexDimRange := by
    intro d hd
    have hg : ¬ ((ShapedT.shape ⟨b ++ [3, 3], b ++ [3]⟩).length : Int) ≤ d := by omega
    have h0 : ¬ (0 ≤ d) := by omega
    rw [ShapedT.unsqueeze, if_neg hg]
    simp only [if_neg h0]
    have hr : unsqueezeShape (b ++ [3, 3]) (d - 2) = .error .indexDimRange := by
      rw [unsqueezeShape, if_pos]
      left
      simp only [List.length_append, List.length_cons, List.length_nil]
      push_cast
      omega
    rw [hr]
  have hC : ∀ d : Int, -((b.length : Int) + 1) ≤ d →
      d < ((ShapedT.shape ⟨b ++ [3, 3], b ++ [3]⟩).length : Int) →
      ∃ u, ShapedT.unsqueeze ⟨b ++ [3, 3], b ++ [3]⟩ d = .ok u := by
    intro d h1 h2
    have hlr : ((b ++ [3, 3]).length : Int) = (b.length : Int) + 2 := by
      simp only [List.length_append, List.length_cons, List.length_nil]
      push_cast
      omega
    have hlt : ((b ++ [3]).length : Int) = (b.length : Int) + 1 := by
      simp only [List.length_append, List.length_cons, List.length_nil]
      push_cast
      omega
    rw [ShapedT.unsqueeze, if_neg (not_le.mpr h2)]
    by_cases h0 : 0 ≤ d
    · simp only [if_pos h0]
      have hr : unsqueezeShape (b ++ [3, 3]) d =
          .ok ((b ++ [3, 3]).insertIdx d.toNat 1) := by
        rw [unsqueezeShape, if_neg (by rw [hlr]; omega), if_pos h0]
      have ht : unsqueezeShape (b ++ [3]) d =
          .ok ((b ++ [3]).insertIdx d.toNat 1) := by
        rw [unsqueezeShape, if_neg (by rw [hlt]; omega), if_pos h0]
      rw [hr, ht]
      exact ⟨_, rfl⟩
    · simp only [if_neg h0]
      have hr : unsqueezeShape (b ++ [3, 3]) (d - 2) =
          .ok ((b ++ [3, 3]).insertIdx (((b ++ [3, 3]).length : Int) + 1 + (d - 2)).toNat 1) := by
        rw [unsqueezeShape, if_neg (by rw [hlr]; omega), if_neg (by omega)]
      have ht : unsqueezeShape (b ++ [3]) (d - 1) =
          .ok ((b ++ [3]).insertIdx (((b ++ [3]).length : Int) + 1 + (d - 1)).toNat 1) := by
        rw [unsqueezeShape, if_neg (by rw [hlt]; omega), if_neg (by omega)]
      rw [hr, ht]
      exact ⟨_, rfl⟩
  refine ⟨rfl, ?_, ?_, ?_, ?_, ?_⟩
  · show (checkT ⟨rs, ts⟩).isOk = true ↔ _
    rw [checkT]
    by_cases h1 : pyLast 2 rs = [3, 3]
    · rw [if_neg (not_not_intro h1)]
      cases hts : ts.getLast? with
      | none =>
        have hts' : ts = [] := List.getLast?_eq_none_iff.mp hts
        subst hts'
        simp [pyLast, Except.isOk, Except.toBool]
      | some d =>
        have hlast : pyLast 1 ts = [d] := by rw [pyLast_one_eq_getLast, hts]
        by_cases h2 : d ≠ 3 ∨ pyDropLast 2 rs ≠ pyDropLast 1 ts
        · simp only []
          rw [if_pos h2]
          apply iff_of_false (by simp [Except.isOk, Except.toBool])
          rintro ⟨-, hl3, hde⟩
          rw [hlast] at hl3
          have : d = 3 := by simpa using hl3
          tauto
        · simp only []
          rw [if_neg h2]
          push_neg at h2
          exact iff_of_true (by simp [Except.isOk, Except.toBool])
            ⟨h1, by rw [hlast, h2.1], h2.2⟩
    · rw [if_pos (by simpa using h1)]
      apply iff_of_false (by simp [Except.isOk, Except.toBool])
      rintro ⟨hc, -, -⟩
      exact h1 hc
  · show checkT ⟨rs, ts⟩ = .error .indexTupleRange ↔ _
    rw [checkT]
    by_cases h1 : pyLast 2 rs = [3, 3]
    · rw [if_neg (not_not_intro h1)]
      cases hts : ts.getLast? with
      | none =>
        have hts' : ts = [] := List.getLast?_eq_none_iff.mp hts
        subst hts'
        exact iff_of_true rfl ⟨h1, rfl⟩
      | some d =>
        have hts' : ts ≠ [] := by
          intro h
          subst h
          rw [List.getLast?_nil] at hts
          exact Option.noConfusion hts
        simp only []
        split
        · apply iff_of_false (by simp)
          rintro ⟨-, hnil⟩
          exact hts' hnil
        · apply iff_of_false (by simp)
          rintro ⟨-, hnil⟩
          exact hts' hnil
    · rw [if_pos (by simpa using h1)]
      apply iff_of_false (by simp)
      rintro ⟨hc, -⟩
      exact h1 hc
  · constructor
    · intro h
      by_contra hlt
      push_neg at hlt
      rcases lt_or_le dim (-((b.length : Int) + 1)) with hc | hc
      · rw [hB dim hc] at h
        simp at h
      · obtain ⟨u, hu⟩ := hC dim hc hlt
        rw [hu] at h
        exact Except.noConfusion h
    · exact hA dim
  · constructor
    · intro h
      by_contra hge
      push_neg at hge
      rcases le_or_lt ((ShapedT.shape ⟨b ++ [3, 3], b ++ [3]⟩).length : Int) dim
        with hc | hc
      · rw [hA dim hc] at h
        simp at h
      · obtain ⟨u, hu⟩ := hC dim hge hc
        rw [hu] at h
        exact Except.noConfusion h
    · exact hB dim
  · constructor
    · intro h
      constructor
      · by_contra hge
        push_neg at hge
        rw [hB dim hge] at h
        simp [Except.isOk, Except.toBool] at h
      · by_contra hlt
        push_neg at hlt
        rw [hA dim hlt] at h
        simp [Except.isOk, Except.toBool] at h
    · rintro ⟨h1, h2⟩
      obtain ⟨u, hu⟩ := hC dim h1 h2
      rw [hu]
      rfl

/-- C10: the `shape` property returns the shared leading batch dims when that
list is nonempty, and the one-element shape `(1,)` — not the empty shape — for
an unbatched transform, including one obtained by indexing away the only
batch dimension. -/
theorem shape_unbatched (t : ShapedT) (n : Nat) :
    (0 < (pyDropLast 2 t.rotShape).length → t.shape = pyDropLast 2 t.rotShape) ∧
    (t.rotShape = [3, 3] → t.shape = [1] ∧ t.shape ≠ []) ∧
    (ShapedT.getitem ⟨[n, 3, 3], [n, 3]⟩ 1).shape = [1] := by
  refine ⟨?_, ?_, ?_⟩
  · intro h
    simp [ShapedT.shape, h]
  · intro h
    refine ⟨?_, ?_⟩ <;> simp [ShapedT.shape, h, pyDropLast]
  · simp [ShapedT.getitem, ShapedT.shape, pyDropLast]

/-- Witness for C10: a batched transform of batch shape `(5,)` has `shape`
`(5,)`, and the unbatched transform has `shape` `(1,)`. -/
theorem shape_unbatched_witness :
    ShapedT.shape ⟨[5, 3, 3], [5, 3]⟩ = [5] ∧
    ShapedT.shape ⟨[3, 3], [3]⟩ = [1] :=
  ⟨(shape_unbatched ⟨[5, 3, 3], [5, 3]⟩ 0).1 (by decide),
    ((shape_unbatched ⟨[3, 3], [3]⟩ 0).2.1 rfl).1⟩

noncomputable section

/-- `T.make_transform_from_reference` (lines 567-636).  The local matrices
below are the *final* values of the three rotation buffers after all in-place
writes in the source: the assignments on lines 613-614 store `-sin_c2` and
`cos_c2` into `c1_rots[..., 2, 0]` and `c1_rots[..., 2, 2]` (overwriting the
`1` placed at `c1_rots[..., 2, 2]`), not into `c2_rots`, whose third row
therefore keeps its `new_zeros` value. -/
def T.make_transform_from_reference (n_xyz ca_xyz c_xyz : Vec3) (eps : ℝ) : T :=
  let translation : Vec3 := (-1 : ℝ) • ca_xyz
  let n_sh : Vec3 := n_xyz + translation
  let c_sh : Vec3 := c_xyz + translation
  let c_x := c_sh 0
  let c_y := c_sh 1
  let c_z := c_sh 2
  let norm1 := Real.sqrt (eps + c_x ^ 2 + c_y ^ 2)
  let sin_c1 := -c_y / norm1
  let cos_c1 := c_x / norm1
  let norm2 := Real.sqrt (eps + c_x ^ 2 + c_y ^ 2 + c_z ^ 2)
  let sin_c2 := c_z / norm2
  let cos_c2 := Real.sqrt (c_x ^ 2 + c_y ^ 2) / norm2
  let c1_rots : Mat3 :=
    Matrix.of ![![cos_c1, -1 * sin_c1, 0],
      ![sin_c1, cos_c1, 0],
      ![-1 * sin_c2, 0, cos_c2]]
  let c2_rots : Mat3 :=
    Matrix.of ![![cos_c2, 0, sin_c2],
      ![0, 1, 0],
      ![0, 0, 0]]
  let c_rots := rot_matmul c2_rots c1_rots
  let n_rot := rot_vec_mul c_rots n_sh
  let n_y := n_rot 1
  let n_z := n_rot 2
  let norm3 := Real.sqrt (eps + n_y ^ 2 + n_z ^ 2)
  let sin_n := -n_z / norm3
  let cos_n := n_y / norm3
  let n_rots : Mat3 :=
    Matrix.of ![![1, 0, 0],
      ![0, cos_n, -1 * sin_n],
      ![0, sin_n, cos_n]]
  let rots := rot_matmul n_rots c_rots
  ⟨rots.transpose, (-1 : ℝ) • translation⟩

/-- C3: refuted for `make_transform_from_reference` — the rotation it returns
has determinant `0` for *every* input (the third row of `c2_rots` is never
written, the two assignments meant for it going to `c1_rots` instead), so the
produced rotation is never orthonormal with determinant `+1`. -/
theorem make_transform_from_reference_det_zero
    (n_xyz ca_xyz c_xyz : Vec3) (eps : ℝ) :
    (T.make_transform_from_reference n_xyz ca_xyz c_xyz eps).rots.det = 0 := by
  have h2 : ∀ a b : ℝ,
      (Matrix.of ![![a, 0, b], ![(0 : ℝ), 1, 0], ![0, 0, 0]] : Mat3).det = 0 := by
    intro a b
    rw [Matrix.det_fin_three]
    simp [Matrix.vecHead, Matrix.vecTail]
  simp only [T.make_transform_from_reference, rot_matmul_eq_mul]
  rw [Matrix.det_transpose, Matrix.det_mul, Matrix.det_mul, h2]
  ring

/-- `T.from_3_points` (lines 455-496): Gram-Schmidt construction of a local
frame from three points.  The source stacks `[e0_i, e1_i, e2_i]` as row `i`,
so `e0`, `e1`, `e2` are the columns of the rotation. -/
def T.from_3_points (p_neg_x_axis origin p_xy_plane : Vec3) (eps : ℝ) : T :=
  let e0 : Vec3 := fun i => origin i - p_neg_x_axis i
  let e1 : Vec3 := fun i => p_xy_plane i - origin i
  let denom0 := Real.sqrt (e0 0 * e0 0 + e0 1 * e0 1 + e0 2 * e0 2 + eps)
  let e0n : Vec3 := fun i => e0 i / denom0
  let dot := e0n 0 * e1 0 + e0n 1 * e1 1 + e0n 2 * e1 2
  let e1p : Vec3 := fun i => e1 i - e0n i * dot
  let denom1 := Real.sqrt (e1p 0 * e1p 0 + e1p 1 * e1p 1 + e1p 2 * e1p 2 + eps)
  let e1n : Vec3 := fun i => e1p i / denom1
  let e2 : Vec3 :=
    ![e0n 1 * e1n 2 - e0n 2 * e1n 1,
      e0n 2 * e1n 0 - e0n 0 * e1n 2,
      e0n 0 * e1n 1 - e0n 1 * e1n 0]
  let rots : Mat3 :=
    Matrix.of ![![e0n 0, e1n 0, e2 0],
      ![e0n 1, e1n 1, e2 1],
      ![e0n 2, e1n 2, e2 2]]
  ⟨rots, origin⟩

/-- Dot product of two 3-vectors. -/
def vdot (a b : Vec3) : ℝ := a 0 * b 0 + a 1 * b 1 + a 2 * b 2

/-- Cross product of two 3-vectors. -/
def vcross (a b : Vec3) : Vec3 :=
  ![a 1 * b 2 - a 2 * b 1, a 2 * b 0 - a 0 * b 2, a 0 * b 1 - a 1 * b 0]

/-- Normalization with `eps` added inside the square root. -/
def normalizeEps (v : Vec3) (eps : ℝ) : Vec3 :=
  fun i => v i / Real.sqrt (vdot v v + eps)

/-- Spec-side formulation (for the refinement in C5): the first basis vector,
`(origin − p_neg_x_axis)` normalized with `eps` inside the square root. -/
def specGsFirst (pnx o : Vec3) (eps : ℝ) : Vec3 :=
  normalizeEps (o - pnx) eps

/-- Spec-side formulation: the second basis vector, `(p_xy_plane − origin)`
projected orthogonal to the first basis vector and normalized. -/
def specGsSecond (pnx o pxy : Vec3) (eps : ℝ) : Vec3 :=
  normalizeEps
    ((pxy - o) - vdot (specGsFirst pnx o eps) (pxy - o) • specGsFirst pnx o eps)
    eps

/-- Spec-side formulation: the third basis vector, the cross product of the
first two. -/
def specGsThird (pnx o pxy : Vec3) (eps : ℝ) : Vec3 :=
  vcross (specGsFirst pnx o eps) (specGsSecond pnx o pxy eps)

/-- The frame of the spec's worked example: `A = (1,0,0)`, `B = (0,0,0)`,
`C = (0,1,0)` with the default `eps = 1e-8`. -/
def exampleFrame : T :=
  T.from_3_points ![1, 0, 0] ![0, 0, 0] ![0, 1, 0] 1e-8

theorem from_3_points_first_col (pnx o pxy : Vec3) (eps : ℝ) (i : Fin 3) :
    (T.from_3_points pnx o pxy eps).rots i 0 = specGsFirst pnx o eps i := by
  fin_cases i <;>
    simp [T.from_3_points, specGsFirst, normalizeEps, vdot, Pi.sub_apply]

theorem div_sqrt_congr (a b c d : ℝ) (h1 : a = c) (h2 : b = d) :
    a / Real.sqrt b = c / Real.sqrt d := by
  rw [h1, h2]

theorem from_3_points_second_col (pnx o pxy : Vec3) (eps : ℝ) (i : Fin 3) :
    (T.from_3_points pnx o pxy eps).rots i 1 = specGsSecond pnx o pxy eps i := by
  fin_cases i <;>
    · simp only [T.from_3_points, specGsSecond, normalizeEps, Matrix.of_apply,
        Matrix.cons_val', Matrix.cons_val_zero, Matrix.cons_val_one, Matrix.head_cons,
        Matrix.head_fin_const, Matrix.cons_val_fin_one, Matrix.empty_val',
        Fin.zero_eta, Fin.mk_one, Fin.reduceFinMk]
      refine div_sqrt_congr _ _ _ _ ?_ ?_ <;>
        · simp only [vdot, specGsFirst, normalizeEps, Pi.sub_apply, Pi.smul_apply,
            smul_eq_mul, Fin.zero_eta, Fin.mk_one, Fin.reduceFinMk]
          ring

theorem from_3_points_third_col (pnx o pxy : Vec3) (eps : ℝ) (i : Fin 3) :
    (T.from_3_points pnx o pxy eps).rots i 2 = specGsThird pnx o pxy eps i := by
  have h0 := from_3_points_first_col pnx o pxy eps
  have h1 := from_3_points_second_col pnx o pxy eps
  fin_cases i <;>
    · simp only [specGsThird, vcross, Matrix.cons_val_zero, Matrix.cons_val_one,
        Matrix.head_cons, Matrix.cons_val_two, Matrix.tail_cons, Fin.zero_eta,
        Fin.mk_one, Fin.reduceFinMk]
      simp only [← h0, ← h1]
      simp [T.from_3_points]

theorem from_3_points_example_rots (eps : ℝ) :
    (T.from_3_points ![1, 0, 0] ![0, 0, 0] ![0, 1, 0] eps).rots = Matrix.of
      ![![-(1 / Real.sqrt (1 + eps)), 0, 0],
        ![0, 1 / Real.sqrt (1 + eps), 0],
        ![0, 0, -(1 / Real.sqrt (1 + eps) * (1 / Real.sqrt (1 + eps)))]] := by
  ext i j
  fin_cases i <;> fin_cases j <;> simp [T.from_3_points] <;> norm_num <;> ring

theorem one_div_sqrt_one_add_bounds (eps : ℝ) (h0 : 0 ≤ eps) (h1 : eps ≤ 1e-8) :
    1 - 1e-8 ≤ 1 / Real.sqrt (1 + eps) ∧ 1 / Real.sqrt (1 + eps) ≤ 1 := by
  have hs1 : (1 : ℝ) ≤ Real.sqrt (1 + eps) :=
    (Real.le_sqrt' one_pos).mpr (by nlinarith)
  have hs2 : Real.sqrt (1 + eps) ≤ 1 + eps / 2 :=
    Real.sqrt_one_add_le (by linarith)
  have hspos : (0 : ℝ) < Real.sqrt (1 + eps) := lt_of_lt_of_le one_pos hs1
  constructor
  · rw [le_div_iff hspos]
    nlinarith
  · rw [div_le_one hspos]
    exact hs1

/-- C5: `from_3_points` returns translation = origin and a rotation whose
basis-vector columns are the spec's Gram-Schmidt frame — the normalized
`origin − p_neg_x_axis`, the normalized projection of `p_xy_plane − origin`
orthogonal to the first, and their cross product, with `eps` inside each
square root; and at `A = (1,0,0)`, `B = (0,0,0)`, `C = (0,1,0)` the first
basis vector is within tolerance of `(−1,0,0)`, the columns are orthonormal
within tolerance, and the translation is `(0,0,0)`. -/
theorem from_3_points_spec (pnx o pxy : Vec3) (eps : ℝ) :
    ((T.from_3_points pnx o pxy eps).trans = o ∧
      (∀ i, (T.from_3_points pnx o pxy eps).rots i 0 = specGsFirst pnx o eps i) ∧
      (∀ i, (T.from_3_points pnx o pxy eps).rots i 1 = specGsSecond pnx o pxy eps i) ∧
      (∀ i, (T.from_3_points pnx o pxy eps).rots i 2 = specGsThird pnx o pxy eps i)) ∧
    (exampleFrame.trans = ![0, 0, 0] ∧
      |exampleFrame.rots 0 0 - (-1)| ≤ 1e-4 ∧
      exampleFrame.rots 1 0 = 0 ∧
      exampleFrame.rots 2 0 = 0 ∧
      ∀ j k : Fin 3,
        |vdot (fun i => exampleFrame.rots i j) (fun i => exampleFrame.rots i k) -
            (if j = k then 1 else 0)| ≤ 1e-4) := by
  have hrot : exampleFrame.rots = Matrix.of
      ![![-(1 / Real.sqrt (1 + 1e-8)), 0, 0],
        ![0, 1 / Real.sqrt (1 + 1e-8), 0],
        ![0, 0, -(1 / Real.sqrt (1 + 1e-8) * (1 / Real.sqrt (1 + 1e-8)))]] :=
    from_3_points_example_rots 1e-8
  have hb := one_div_sqrt_one_add_bounds 1e-8 (by norm_num) le_rfl
  obtain ⟨u, hud, hb1, hb2⟩ :
      ∃ u : ℝ, 1 / Real.sqrt (1 + 1e-8) = u ∧ 1 - 1e-8 ≤ u ∧ u ≤ 1 :=
    ⟨_, rfl, hb.1, hb.2⟩
  rw [hud] at hrot
  have hu2a : 1 - 2e-8 ≤ u * u := by nlinarith
  have hu2b : u * u ≤ 1 := by nlinarith
  refine ⟨⟨rfl, from_3_points_first_col pnx o pxy eps,
    from_3_points_second_col pnx o pxy eps, from_3_points_third_col pnx o pxy eps⟩,
    rfl, ?_, ?_, ?_, ?_⟩
  · rw [hrot]
    simp only [Matrix.of_apply, Matrix.cons_val', Matrix.cons_val_zero,
      Matrix.cons_val_one, Matrix.head_cons, Matrix.head_fin_const,
      Matrix.cons_val_fin_one, Matrix.empty_val', Matrix.vecHead, Matrix.vecTail]
    rw [abs_le]
    constructor <;> nlinarith
  · rw [hrot]
    simp [Matrix.vecHead, Matrix.vecTail]
  · rw [hrot]
    simp [Matrix.vecHead, Matrix.vecTail]
  · intro j k
    fin_cases j <;> fin_cases k <;>
      (first | rw [if_pos rfl] | rw [if_neg (by decide)]) <;>
      simp only [hrot, vdot, Matrix.of_apply, Matrix.cons_val', Matrix.cons_val_zero,
        Matrix.cons_val_one, Matrix.head_cons, Matrix.head_fin_const,
        Matrix.cons_val_fin_one, Matrix.empty_val', Fin.zero_eta, Fin.mk_one,
        Fin.reduceFinMk, Matrix.vecHead, Matrix.vecTail, Matrix.cons_val_two,
        Matrix.tail_cons, Function.comp_apply] <;>
      norm_num <;>
      · rw [abs_le]
        constructor <;> nlinarith

/-- `torch.atan2` on real scalars: the angle of the point `(x, y)` in
`(−π, π]`, with the usual conventions on the axes. -/
def atan2 (y x : ℝ) : ℝ :=
  if 0 < x then Real.arctan (y / x)
  else if x < 0 then
    (if 0 ≤ y then Real.arctan (y / x) + Real.pi else Real.arctan (y / x) - Real.pi)
  else
    (if 0 < y then Real.pi / 2 else if y < 0 then -(Real.pi / 2) else 0)

/-- `torch.norm(·, p=2, dim=-1)` of a 3-vector. -/
def vnorm3 (v : Vec3) : ℝ := Real.sqrt (v 0 * v 0 + v 1 * v 1 + v 2 * v 2)

/-- A quaternion with real part first (a `[*, 4]` tensor per element). -/
abbrev Quat := Fin 4 → ℝ

/-- `torch.norm(quats[..., 1:], p=2, dim=-1)`: norm of the imaginary part. -/
def qvecnorm (q : Quat) : ℝ := Real.sqrt (q 1 * q 1 + q 2 * q 2 + q 3 * q 3)

/-- The masked `sin_half_angles_over_angles` computation shared by
`quat_to_axis_angle` (lines 786-796) and `axis_angle_to_quat` (lines 938-948):
entries with `|angle| < 1e-6` get the Taylor fallback `1/2 − angle²/48`, the
rest get `sin(angle/2)/angle`. -/
def sin_half_over_angle (angle : ℝ) : ℝ :=
  if |angle| < 1e-6 then 0.5 - angle * angle / 48
  else Real.sin (angle * 0.5) / angle

/-- `axis_angle_to_quat` (lines 923-952): `angles` is the vector magnitude,
and the quaternion is `[cos(angles/2), axis_angle * sin_half_over_angle]`. -/
def axis_angle_to_quat (axis_angle : Vec3) : Quat :=
  let angles := vnorm3 axis_angle
  let half_angles := angles * 0.5
  let saoa := sin_half_over_angle angles
  ![Real.cos half_angles, axis_angle 0 * saoa, axis_angle 1 * saoa,
    axis_angle 2 * saoa]

/-- `quat_to_axis_angle` (lines 769-797): `half_angles = atan2(‖imag‖, real)`,
`angles = 2 · half_angles`, and the result divides the imaginary part by
`sin_half_over_angle angles`. -/
def quat_to_axis_angle (quats : Quat) : Vec3 :=
  let norms := qvecnorm quats
  let half_angles := atan2 norms (quats 0)
  let angles := 2 * half_angles
  let saoa := sin_half_over_angle angles
  ![quats 1 / saoa, quats 2 / saoa, quats 3 / saoa]

theorem vnorm3_nonneg (v : Vec3) : 0 ≤ vnorm3 v := Real.sqrt_nonneg _

theorem abs_component_le_vnorm3 (v : Vec3) (i : Fin 3) : |v i| ≤ vnorm3 v := by
  have h : v i * v i ≤ v 0 * v 0 + v 1 * v 1 + v 2 * v 2 := by
    fin_cases i <;>
      · simp only [Fin.zero_eta, Fin.mk_one, Fin.reduceFinMk]
        nlinarith [mul_self_nonneg (v 0), mul_self_nonneg (v 1),
          mul_self_nonneg (v 2)]
  calc |v i| = Real.sqrt (v i * v i) := (Real.sqrt_mul_self_eq_abs (v i)).symm
    _ ≤ vnorm3 v := Real.sqrt_le_sqrt h

theorem qvecnorm_of_scaled (v : Vec3) (a c : ℝ) (hc : 0 ≤ c) :
    qvecnorm ![a, v 0 * c, v 1 * c, v 2 * c] = c * vnorm3 v := by
  have h : (v 0 * c) * (v 0 * c) + (v 1 * c) * (v 1 * c) + (v 2 * c) * (v 2 * c) =
      (c * c) * (v 0 * v 0 + v 1 * v 1 + v 2 * v 2) := by ring
  simp only [qvecnorm, Matrix.cons_val_one, Matrix.head_cons, Matrix.cons_val_two,
    Matrix.tail_cons, Matrix.cons_val_three]
  rw [h, Real.sqrt_mul (mul_self_nonneg c), Real.sqrt_mul_self hc, vnorm3]

theorem arctan_le_self (x : ℝ) (hx : 0 ≤ x) : Real.arctan x ≤ x := by
  rcases eq_or_lt_of_le hx with h | h
  · simp [← h]
  · have ha : 0 < Real.arctan x := by
      have := Real.arctan_strictMono h
      simpa [Real.arctan_zero] using this
    have := Real.lt_tan ha (Real.arctan_lt_pi_div_two x)
    rw [Real.tan_arctan] at this
    exact this.le

theorem arctan_nonneg (x : ℝ) (hx : 0 ≤ x) : 0 ≤ Real.arctan x := by
  rcases eq_or_lt_of_le hx with h | h
  · simp [← h]
  · have := Real.arctan_strictMono h
    simpa [Real.arctan_zero] using this.le

theorem sin_half_over_angle_bounds (a : ℝ) (h0 : 0 ≤ a) (hle : a ≤ 1.2e-6) :
    0.49 ≤ sin_half_over_angle a ∧ sin_half_over_angle a ≤ 0.5 ∧
      |sin_half_over_angle a - 0.5| ≤ 1e-13 := by
  have ha2 : a * a ≤ 1.44e-12 := by nlinarith
  rw [sin_half_over_angle]
  split
  case isTrue h =>
    refine ⟨by nlinarith, by nlinarith, ?_⟩
    rw [abs_le]
    constructor <;> nlinarith
  case isFalse h =>
    have ha : 1e-6 ≤ a := by rwa [abs_of_nonneg h0, not_lt] at h
    have hapos : (0 : ℝ) < a := lt_of_lt_of_le (by norm_num) ha
    have hx0 : (0 : ℝ) < a * 0.5 := by linarith
    have hx1 : a * 0.5 ≤ 1 := by nlinarith
    have hs1 : Real.sin (a * 0.5) < a * 0.5 := Real.sin_lt hx0
    have hs2 : a * 0.5 - (a * 0.5) ^ 3 / 4 < Real.sin (a * 0.5) :=
      Real.sin_gt_sub_cube hx0 hx1
    have hcube : a * (a * a) ≤ a * 1.44e-12 :=
      mul_le_mul_of_nonneg_left ha2 h0
    have hfle : Real.sin (a * 0.5) / a ≤ 0.5 := by
      rw [div_le_iff hapos]
      nlinarith
    have hfge : 0.5 - 1e-13 ≤ Real.sin (a * 0.5) / a := by
      rw [le_div_iff hapos]
      nlinarith
    refine ⟨by linarith, hfle, ?_⟩
    rw [abs_le]
    constructor <;> linarith

theorem sin_half_over_angle_pos (a : ℝ) (h0 : 0 ≤ a) (hπ : a ≤ Real.pi) :
    0 < sin_half_over_angle a := by
  rw [sin_half_over_angle]
  split
  case isTrue h =>
    rw [abs_of_nonneg h0] at h
    nlinarith
  case isFalse h =>
    have ha : 1e-6 ≤ a := by rwa [abs_of_nonneg h0, not_lt] at h
    have hapos : (0 : ℝ) < a := lt_of_lt_of_le (by norm_num) ha
    have hsin : 0 < Real.sin (a * 0.5) := by
      apply Real.sin_pos_of_pos_of_lt_pi (by linarith)
      nlinarith [Real.pi_pos]
    exact div_pos hsin hapos

theorem atan2_sin_cos (θ : ℝ) (h0 : 0 ≤ θ) (hπ : θ ≤ Real.pi) :
    atan2 (Real.sin (θ * 0.5)) (Real.cos (θ * 0.5)) = θ * 0.5 := by
  rcases lt_or_eq_of_le hπ with hlt | heq
  · have hc : 0 < Real.cos (θ * 0.5) := by
      apply Real.cos_pos_of_mem_Ioo
      constructor
      · nlinarith [Real.pi_pos]
      · nlinarith
    rw [atan2, if_pos hc, ← Real.tan_eq_sin_div_cos]
    apply Real.arctan_tan
    · have := Real.pi_pos
      nlinarith
    · nlinarith
  · subst heq
    rw [show Real.pi * 0.5 = Real.pi / 2 by ring, Real.sin_pi_div_two,
      Real.cos_pi_div_two, atan2]
    norm_num

theorem axis_angle_to_quat_eq (v : Vec3) : axis_angle_to_quat v =
    ![Real.cos (vnorm3 v * 0.5), v 0 * sin_half_over_angle (vnorm3 v),
      v 1 * sin_half_over_angle (vnorm3 v), v 2 * sin_half_over_angle (vnorm3 v)] :=
  rfl

theorem quat_to_axis_angle_eq (q : Quat) : quat_to_axis_angle q =
    ![q 1 / sin_half_over_angle (2 * atan2 (qvecnorm q) (q 0)),
      q 2 / sin_half_over_angle (2 * atan2 (qvecnorm q) (q 0)),
      q 3 / sin_half_over_angle (2 * atan2 (qvecnorm q) (q 0))] :=
  rfl

/-- C8: both conversions apply the Taylor fallback `1/2 − x²/48` to exactly
the angles with `|x| < 1e-6` and the exact ratio `sin(x/2)/x` to the rest;
and the axis-angle → quaternion → axis-angle round trip recovers every
vector of magnitude at most `π` — small angles below `1e-6` rad as well as
angles up to and including `π` — within `1e-12` in every component. -/
theorem axis_angle_round_trip (v : Vec3) (hπ : vnorm3 v ≤ Real.pi) :
    (∀ x : ℝ, (|x| < 1e-6 → sin_half_over_angle x = 0.5 - x * x / 48) ∧
      (1e-6 ≤ |x| → sin_half_over_angle x = Real.sin (x * 0.5) / x)) ∧
    ∀ i : Fin 3, |quat_to_axis_angle (axis_angle_to_quat v) i - v i| ≤ 1e-12 := by
  refine ⟨fun x => ⟨fun hx => by rw [sin_half_over_angle, if_pos hx],
    fun hx => by rw [sin_half_over_angle, if_neg (not_lt.mpr hx)]⟩, ?_⟩
  have hθ0 : 0 ≤ vnorm3 v := vnorm3_nonneg v
  have hf1pos : 0 < sin_half_over_angle (vnorm3 v) :=
    sin_half_over_angle_pos _ hθ0 hπ
  have hnormq : qvecnorm ![Real.cos (vnorm3 v * 0.5),
      v 0 * sin_half_over_angle (vnorm3 v), v 1 * sin_half_over_angle (vnorm3 v),
      v 2 * sin_half_over_angle (vnorm3 v)] =
      sin_half_over_angle (vnorm3 v) * vnorm3 v :=
    qvecnorm_of_scaled v _ _ hf1pos.le
  have hres : ∀ i : Fin 3, quat_to_axis_angle (axis_angle_to_quat v) i =
      v i * sin_half_over_angle (vnorm3 v) /
        sin_half_over_angle (2 * atan2 (sin_half_over_angle (vnorm3 v) * vnorm3 v)
          (Real.cos (vnorm3 v * 0.5))) := by
    intro i
    rw [axis_angle_to_quat_eq, quat_to_axis_angle_eq, hnormq]
    fin_cases i <;>
      simp only [Matrix.cons_val_zero, Matrix.cons_val_one, Matrix.head_cons,
        Matrix.cons_val_two, Matrix.tail_cons, Matrix.cons_val_three,
        Fin.zero_eta, Fin.mk_one, Fin.reduceFinMk]
  intro i
  rw [hres i]
  rcases lt_or_le (vnorm3 v) 1e-6 with hsmall | hbig
  · -- Taylor branch: magnitude below the 1e-6 threshold
    obtain ⟨b1, b2, b3⟩ := sin_half_over_angle_bounds (vnorm3 v) hθ0 (by linarith)
    have hcos : 0 < Real.cos (vnorm3 v * 0.5) := by
      apply Real.cos_pos_of_mem_Ioo
      constructor
      · nlinarith [Real.pi_pos]
      · nlinarith [Real.pi_gt_three]
    have hcosge : (0.9 : ℝ) ≤ Real.cos (vnorm3 v * 0.5) := by
      nlinarith [Real.one_sub_sq_div_two_le_cos (x := vnorm3 v * 0.5)]
    rw [atan2, if_pos hcos]
    have hargnn : 0 ≤ sin_half_over_angle (vnorm3 v) * vnorm3 v /
        Real.cos (vnorm3 v * 0.5) :=
      div_nonneg (mul_nonneg hf1pos.le hθ0) hcos.le
    have harctanle := arctan_le_self _ hargnn
    have hdivle : sin_half_over_angle (vnorm3 v) * vnorm3 v /
        Real.cos (vnorm3 v * 0.5) ≤ 5.6e-7 := by
      rw [div_le_iff hcos]
      nlinarith
    have hth'0 : 0 ≤ 2 * Real.arctan (sin_half_over_angle (vnorm3 v) * vnorm3 v /
        Real.cos (vnorm3 v * 0.5)) := by
      have := arctan_nonneg _ hargnn
      linarith
    have hth'le : 2 * Real.arctan (sin_half_over_angle (vnorm3 v) * vnorm3 v /
        Real.cos (vnorm3 v * 0.5)) ≤ 1.2e-6 := by linarith
    obtain ⟨c1, c2, c3⟩ := sin_half_over_angle_bounds _ hth'0 hth'le
    have hf2pos : 0 < sin_half_over_angle
        (2 * Real.arctan (sin_half_over_angle (vnorm3 v) * vnorm3 v /
          Real.cos (vnorm3 v * 0.5))) := by linarith
    have heq : v i * sin_half_over_angle (vnorm3 v) / sin_half_over_angle
        (2 * Real.arctan (sin_half_over_angle (vnorm3 v) * vnorm3 v /
          Real.cos (vnorm3 v * 0.5))) - v i =
        v i * (sin_half_over_angle (vnorm3 v) - sin_half_over_angle
          (2 * Real.arctan (sin_half_over_angle (vnorm3 v) * vnorm3 v /
            Real.cos (vnorm3 v * 0.5)))) / sin_half_over_angle
          (2 * Real.arctan (sin_half_over_angle (vnorm3 v) * vnorm3 v /
            Real.cos (vnorm3 v * 0.5))) := by
      field_simp
      ring
    rw [heq, abs_div, abs_of_pos hf2pos, div_le_iff hf2pos, abs_mul]
    have hvi : |v i| ≤ vnorm3 v := abs_component_le_vnorm3 v i
    have hdiff : |sin_half_over_angle (vnorm3 v) - sin_half_over_angle
        (2 * Real.arctan (sin_half_over_angle (vnorm3 v) * vnorm3 v /
          Real.cos (vnorm3 v * 0.5)))| ≤ 2e-13 := by
      have h1 : |sin_half_over_angle (vnorm3 v) - 0.5| ≤ 1e-13 := b3
      have h2 : |0.5 - sin_half_over_angle
          (2 * Real.arctan (sin_half_over_angle (vnorm3 v) * vnorm3 v /
            Real.cos (vnorm3 v * 0.5)))| ≤ 1e-13 := by rwa [abs_sub_comm]
      have h3 := abs_add (sin_half_over_angle (vnorm3 v) - 0.5)
        (0.5 - sin_half_over_angle
          (2 * Real.arctan (sin_half_over_angle (vnorm3 v) * vnorm3 v /
            Real.cos (vnorm3 v * 0.5))))
      have h4 : sin_half_over_angle (vnorm3 v) - 0.5 +
          (0.5 - sin_half_over_angle
            (2 * Real.arctan (sin_half_over_angle (vnorm3 v) * vnorm3 v /
              Real.cos (vnorm3 v * 0.5)))) =
          sin_half_over_angle (vnorm3 v) - sin_half_over_angle
            (2 * Real.arctan (sin_half_over_angle (vnorm3 v) * vnorm3 v /
              Real.cos (vnorm3 v * 0.5))) := by ring
      rw [h4] at h3
      linarith
    nlinarith [abs_nonneg (v i), hvi, hdiff, c1,
      mul_le_mul hvi hdiff (abs_nonneg _) hθ0]
  · -- exact branch: magnitude in [1e-6, π]
    have hθpos : (0 : ℝ) < vnorm3 v := lt_of_lt_of_le (by norm_num) hbig
    have hf1 : sin_half_over_angle (vnorm3 v) =
        Real.sin (vnorm3 v * 0.5) / vnorm3 v := by
      rw [sin_half_over_angle, if_neg]
      rw [abs_of_nonneg hθ0]
      exact not_lt.mpr hbig
    have hmul : sin_half_over_angle (vnorm3 v) * vnorm3 v =
        Real.sin (vnorm3 v * 0.5) := by
      rw [hf1, div_mul_cancel₀ _ (ne_of_gt hθpos)]
    rw [hmul, atan2_sin_cos _ hθ0 hπ,
      show 2 * (vnorm3 v * 0.5) = vnorm3 v by ring,
      mul_div_cancel_right₀ _ (ne_of_gt hf1pos), sub_self, abs_zero]
    norm_num

/-- Witness for C8 at the vector `(1, 0, 0)` (rotation angle 1 rad, exact
branch of both conversions). -/
theorem axis_angle_round_trip_witness :
    vnorm3 ![1, 0, 0] ≤ Real.pi ∧
    ∀ i : Fin 3,
      |quat_to_axis_angle (axis_angle_to_quat ![1, 0, 0]) i - ![1, 0, 0] i| ≤
        1e-12 := by
  have h1 : vnorm3 ![1, 0, 0] = 1 := by
    simp [vnorm3]
  have h : vnorm3 ![1, 0, 0] ≤ Real.pi := by
    rw [h1]
    linarith [Real.pi_gt_three]
  exact ⟨h, (axis_angle_round_trip ![1, 0, 0] h).2⟩
